import Mathlib

/-!
Verification development for the Family Tree Creator repository.

The main variant (src/JS/script.js) keeps a flat array familyMembers of
member records and an id counter nextId.  A member record is
  { id, name, relatedTo, relationship, parents? }
where
  * id is a number assigned from nextId (post-incremented),
  * relatedTo is either null (root), a string taken from the value of the
    related-to select element (root/parent/child/spouse branches), or a
    number (the sibling branch stores relatedMember.parents[0]),
  * relationship is one of root, parent, child, sibling, spouse,
  * parents, when present, is a JavaScript array object; the sibling branch
    stores the very same array object as the referenced member (aliasing),
    so we model the parents field as an optional reference into an explicit
    heap of integer arrays.

JavaScript equality matters: the submit handler compares ids with loose
equality (==), which coerces a digit string to a number, while
positionNode compares member.relatedTo === memberId with strict equality,
which is always false between a string and a number.  We model the
relatedTo values with an explicit sum type and both equality operators.

All coordinates computed by drawTree are dyadic rationals (the only
divisions are by 2), so modelling IEEE doubles by rationals is exact here.
-/

namespace FamilyTree

/-- Model of the JavaScript values stored in the relatedTo field: null,
a digit string (select element value), or a number (sibling branch). -/
inductive JSRef where
  | null : JSRef
  | jstr : Nat → JSRef
  | jnum : Nat → JSRef
deriving DecidableEq, Repr

/-- JavaScript loose equality (==) between a relatedTo value and a number
(or a digit string holding that number): null == n is false, a digit
string is coerced to its number, a number compares directly. -/
def looseEq : JSRef → Nat → Bool
  | JSRef.null, _ => false
  | JSRef.jstr a, n => a == n
  | JSRef.jnum a, n => a == n

/-- JavaScript strict equality (===) between a relatedTo value and a
number: only a number can be strictly equal to a number; a digit string
never is. -/
def strictEqNum : JSRef → Nat → Bool
  | JSRef.jnum a, n => a == n
  | _, _ => false

/-- The five relationship kinds offered by the relationship select. -/
inductive Rel where
  | root : Rel
  | parent : Rel
  | child : Rel
  | sibling : Rel
  | spouse : Rel
deriving DecidableEq, Repr

/-- One showMessage call site per constructor (validation failures of the
submit handler in src/JS/script.js). -/
inductive ErrMsg where
  /-- "Please enter a member name." -/
  | emptyName : ErrMsg
  /-- "A family tree can only have one root member." -/
  | duplicateRoot : ErrMsg
  /-- "Please select a person to relate this member to." -/
  | noRelatedSelected : ErrMsg
  /-- "A person cannot be related to themselves." -/
  | selfRelation : ErrMsg
  /-- "Selected child not found." -/
  | childNotFound : ErrMsg
  /-- "This child already has two parents." -/
  | alreadyTwoParents : ErrMsg
  /-- "Selected parent not found." -/
  | parentNotFound : ErrMsg
  /-- "The selected person does not have a spouse to add as the second parent." -/
  | noSpouseForSecondParent : ErrMsg
  /-- "The selected member must have a parent to add a sibling." -/
  | siblingNoParent : ErrMsg
  /-- "The selected member already has a spouse." -/
  | alreadyHasSpouse : ErrMsg
deriving DecidableEq, Repr

/-- One element of the familyMembers array.  The parents field is an
optional reference into the heap of parent arrays (none models a record
without a parents field, as produced by the parent and spouse branches). -/
structure Member where
  id : Nat
  name : String
  relatedTo : JSRef
  relationship : Rel
  parents : Option Nat
deriving DecidableEq, Repr

/-- The mutable page state: the id counter, the familyMembers array, and
the heap of parents arrays (ref = index). -/
structure State where
  nextId : Nat
  familyMembers : List Member
  heap : List (List Nat)
deriving DecidableEq, Repr

/-- The state at page load: familyMembers = [], nextId = 1. -/
def initState : State := { nextId := 1, familyMembers := [], heap := [] }

/-- One submit of the add-member form: the name input, the relationship
select, the related-to select (none models the empty default option), and
the is-child-of-both checkbox. -/
structure AddReq where
  name : String
  relationship : Rel
  relatedTo : Option Nat
  isChildOfBoth : Bool
deriving DecidableEq, Repr

/-- Model of memberNameInput.value.trim(): drop leading and trailing
whitespace characters. -/
def jsTrim (s : String) : String :=
  String.mk
    (((s.data.dropWhile Char.isWhitespace).reverse.dropWhile
      Char.isWhitespace).reverse)

/-- familyMembers.find(m => m.id == t) where t is the digit string from
the select (loose equality coerces it to a number). -/
def findMember (ms : List Member) (t : Nat) : Option Member :=
  ms.find? (fun m => m.id == t)

/-- The parents array of a member: the referenced heap cell, or [] when
the member has no parents field. -/
def parentsArr (heap : List (List Nat)) (m : Member) : List Nat :=
  match m.parents with
  | none => []
  | some r => heap.getD r []

/-- Mutation of the found child object in the parent branch: set the
parents field of the first member whose id matches t (JavaScript mutates
the object returned by find, which is the first match). -/
def setParentsRef : List Member → Nat → Nat → List Member
  | [], _, _ => []
  | m :: ms, t, ref =>
    if m.id == t then { m with parents := some ref } :: ms
    else m :: setParentsRef ms t ref

/-- The parent branch of the submit handler (script.js lines 277-292):
find the child, reject a child that already has two parents, otherwise
create the new parent member and push its id onto the child parents
array (allocating the array first when the child has none). -/
def parentBranch (s : State) (memberName : String) (t : Nat) :
    State × Option ErrMsg :=
  match findMember s.familyMembers t with
  | none => (s, some ErrMsg.childNotFound)
  | some childMember =>
    if 2 ≤ (parentsArr s.heap childMember).length then
      (s, some ErrMsg.alreadyTwoParents)
    else
      let newMember : Member :=
        { id := s.nextId, name := memberName, relatedTo := JSRef.jstr t,
          relationship := Rel.parent, parents := none }
      match childMember.parents with
      | some ref =>
        ({ nextId := s.nextId + 1,
           familyMembers := s.familyMembers ++ [newMember],
           heap := s.heap.set ref (s.heap.getD ref [] ++ [newMember.id]) },
         none)
      | none =>
        ({ nextId := s.nextId + 1,
           familyMembers :=
             setParentsRef s.familyMembers t s.heap.length ++ [newMember],
           heap := s.heap ++ [[newMember.id]] },
         none)

/-- The spouse lookup of the child branch (script.js lines 303-311): if
the selected person is themselves a spouse member, follow relatedTo to the
partner; otherwise find the spouse member pointing at the selected person.
Both comparisons are loose (==). -/
def findSpouseOf (ms : List Member) (p : Member) : Option Member :=
  if p.relationship = Rel.spouse then
    ms.find? (fun m => looseEq p.relatedTo m.id)
  else
    ms.find? (fun m => looseEq m.relatedTo p.id && m.relationship == Rel.spouse)

/-- The child branch of the submit handler (script.js lines 294-321). -/
def childBranch (s : State) (memberName : String) (t : Nat)
    (isChildOfBoth : Bool) : State × Option ErrMsg :=
  match findMember s.familyMembers t with
  | none => (s, some ErrMsg.parentNotFound)
  | some parentMember =>
    if isChildOfBoth then
      match findSpouseOf s.familyMembers parentMember with
      | none => (s, some ErrMsg.noSpouseForSecondParent)
      | some sp =>
        ({ nextId := s.nextId + 1,
           familyMembers := s.familyMembers ++
             [{ id := s.nextId, name := memberName, relatedTo := JSRef.jstr t,
                relationship := Rel.child, parents := some s.heap.length }],
           heap := s.heap ++ [[parentMember.id, sp.id]] },
         none)
    else
      ({ nextId := s.nextId + 1,
         familyMembers := s.familyMembers ++
           [{ id := s.nextId, name := memberName, relatedTo := JSRef.jstr t,
              relationship := Rel.child, parents := some s.heap.length }],
         heap := s.heap ++ [[parentMember.id]] },
       none)

/-- The sibling branch of the submit handler (script.js lines 322-328):
the new member receives the very same parents array reference as the
referenced member, and relatedTo := relatedMember.parents[0] (a number). -/
def siblingBranch (s : State) (memberName : String) (t : Nat) :
    State × Option ErrMsg :=
  match findMember s.familyMembers t with
  | none => (s, some ErrMsg.siblingNoParent)
  | some relatedMember =>
    match relatedMember.parents with
    | none => (s, some ErrMsg.siblingNoParent)
    | some ref =>
      let arr := s.heap.getD ref []
      if arr.length = 0 then (s, some ErrMsg.siblingNoParent)
      else
        ({ nextId := s.nextId + 1,
           familyMembers := s.familyMembers ++
             [{ id := s.nextId, name := memberName,
                relatedTo := JSRef.jnum (arr.headD 0),
                relationship := Rel.sibling, parents := some ref }],
           heap := s.heap },
         none)

/-- The member record pushed by a successful spouse branch: relatedTo is
the selected id as a digit string, and there is no parents field. -/
def spouseRecord (s : State) (memberName : String) (t : Nat) : Member :=
  { id := s.nextId, name := memberName, relatedTo := JSRef.jstr t,
    relationship := Rel.spouse, parents := none }

/-- The spouse branch of the submit handler (script.js lines 329-335):
reject when some existing member is already recorded as a spouse of the
selected member (m.relatedTo == relatedTo with loose equality), otherwise
push the new spouse member. -/
def spouseBranch (s : State) (memberName : String) (t : Nat) :
    State × Option ErrMsg :=
  if s.familyMembers.any
      (fun m => looseEq m.relatedTo t && m.relationship == Rel.spouse) then
    (s, some ErrMsg.alreadyHasSpouse)
  else
    ({ nextId := s.nextId + 1,
       familyMembers := s.familyMembers ++ [spouseRecord s memberName t],
       heap := s.heap },
     none)

/-- The submit handler of the add-member form (script.js lines 248-345).
The name is trimmed; an empty trimmed name is rejected first; the root
branch rejects any non-empty familyMembers array; the other branches
require a selection that is not the string of nextId, then dispatch. -/
def handle (s : State) (r : AddReq) : State × Option ErrMsg :=
  let memberName := jsTrim r.name
  if memberName = "" then (s, some ErrMsg.emptyName)
  else if r.relationship = Rel.root then
    if 0 < s.familyMembers.length then (s, some ErrMsg.duplicateRoot)
    else
      ({ nextId := s.nextId + 1,
         familyMembers := s.familyMembers ++
           [{ id := s.nextId, name := memberName, relatedTo := JSRef.null,
              relationship := Rel.root, parents := some s.heap.length }],
         heap := s.heap ++ [[]] },
       none)
  else
    match r.relatedTo with
    | none => (s, some ErrMsg.noRelatedSelected)
    | some t =>
      if t = s.nextId then (s, some ErrMsg.selfRelation)
      else if r.relationship = Rel.parent then
        parentBranch s memberName t
      else if r.relationship = Rel.child then
        childBranch s memberName t r.isChildOfBoth
      else if r.relationship = Rel.sibling then
        siblingBranch s memberName t
      else if r.relationship = Rel.spouse then
        spouseBranch s memberName t
      else (s, none)

/-! Layout engine: the manual positioning pass of drawTree
(script.js lines 109-245).  The layout reads only the familyMembers
array and the parents heap; it never mutates them. -/

/-- A positioned node as stored in the nodes Map of drawTree. -/
structure PNode where
  id : Nat
  name : String
  x : Rat
  y : Rat
  relationship : Rel
deriving DecidableEq, Repr

/-- The mutable locals of the positioning pass: the nodes Map (in
insertion order), the processed Set, and the running maxX / minX. -/
structure LayoutState where
  nodes : List PNode
  processed : List Nat
  maxX : Rat
  minX : Rat
deriving DecidableEq, Repr

/-- The spacing constants of drawTree. -/
def nodeSpacingX : Rat := 150

/-- Vertical distance between a parent row and its children row. -/
def nodeSpacingY : Rat := 150

/-- Horizontal offset of a spouse from its partner. -/
def spouseSpacing : Rat := 100

/-- The coordinates positionNode passes to the recursive calls for the n
children of a member positioned at (x, y): childSpacing is nodeSpacingX
when there is more than one child (0 otherwise), startX centers the row
on x, and child i is placed at startX + i * childSpacing, one
nodeSpacingY below the parent. -/
def childSlots (x y : Rat) (n : Nat) : List (Rat × Rat) :=
  let childSpacing : Rat := if 1 < n then nodeSpacingX else 0
  let startX : Rat := x - ((n : Rat) - 1) * childSpacing / 2
  (List.range n).map
    (fun (i : Nat) => (startX + (i : Rat) * childSpacing, y + nodeSpacingY))

/-- familyMembers.filter(m => m.parents && m.parents.includes(memberId)). -/
def childrenOf (ms : List Member) (heap : List (List Nat)) (memberId : Nat) :
    List Member :=
  ms.filter (fun m =>
    match m.parents with
    | some ref => (heap.getD ref []).contains memberId
    | none => false)

/-- Depth-first worklist form of positionNode (script.js lines 135-163).
Each popped task (memberId, x, y) is one positionNode call: skip an
already processed id, otherwise record the node and the min/max extent,
then prepend the spouse task (found with strict === between relatedTo and
the numeric memberId, hence never a digit string) followed by the child
tasks.  Prepending reproduces the call order of the recursion.  The fuel
only bounds the recursion; drawTree supplies enough for every store. -/
def positionSteps (ms : List Member) (heap : List (List Nat)) :
    Nat → LayoutState → List (Nat × Rat × Rat) → LayoutState
  | 0, st, _ => st
  | _ + 1, st, [] => st
  | fuel + 1, st, (memberId, x, y) :: rest =>
    if st.processed.contains memberId then positionSteps ms heap fuel st rest
    else
      let st1 := { st with processed := st.processed ++ [memberId] }
      match findMember ms memberId with
      | none => positionSteps ms heap fuel st1 rest
      | some member =>
        let st2 : LayoutState :=
          { st1 with
            nodes := st1.nodes ++
              [{ id := memberId, name := member.name, x := x, y := y,
                 relationship := member.relationship }],
            maxX := max st1.maxX x,
            minX := min st1.minX x }
        let spouseTasks : List (Nat × Rat × Rat) :=
          if member.relationship ≠ Rel.spouse then
            match ms.find? (fun m =>
                strictEqNum m.relatedTo memberId && m.relationship == Rel.spouse) with
            | some sp => [(sp.id, x + spouseSpacing, y)]
            | none => []
          else []
        let children := childrenOf ms heap memberId
        let childTasks : List (Nat × Rat × Rat) :=
          ((children.map Member.id).zip (childSlots x y children.length)).map
            (fun p => (p.1, p.2.1, p.2.2))
        positionSteps ms heap fuel st2 (spouseTasks ++ childTasks ++ rest)

/-- An emitted svg path: the spouse link, the single parent-child link, or
the child-couple connector, each with its two endpoints. -/
inductive Edge where
  | spouseLink (x1 y1 x2 y2 : Rat) : Edge
  | parentChild (x1 y1 x2 y2 : Rat) : Edge
  | childCoupleConnector (x1 y1 x2 y2 : Rat) : Edge
deriving DecidableEq, Repr

/-- nodes.get(id) on the Map of positioned nodes (keys are numbers). -/
def nodeById (nodes : List PNode) (i : Nat) : Option PNode :=
  nodes.find? (fun nd => nd.id == i)

/-- nodes.get(member.relatedTo): the Map keys are numbers, so a lookup
with a digit string key misses and only a numeric relatedTo can hit. -/
def nodeByRef (nodes : List PNode) : JSRef → Option PNode
  | JSRef.jnum n => nodeById nodes n
  | _ => none

/-- The parent-child portion of the link drawing (script.js lines
196-212): one resolved parent node yields a direct link, two yield a
connector starting at the midpoint of the two parent x-coordinates. -/
def parentEdge (child : PNode) : List PNode → List Edge
  | [p] => [Edge.parentChild p.x p.y child.x child.y]
  | [p1, p2] =>
    [Edge.childCoupleConnector ((p1.x + p2.x) / 2) p1.y child.x child.y]
  | _ => []

/-- Step 2 of drawTree (script.js lines 181-213): for each member in
array order, draw its spouse link (when the member is a spouse and the
partner lookup by relatedTo hits) and then its parent links. -/
def drawEdges (ms : List Member) (heap : List (List Nat))
    (nodes : List PNode) : List Edge :=
  ms.flatMap (fun member =>
    match nodeById nodes member.id with
    | none => []
    | some memberNode =>
      (if member.relationship = Rel.spouse then
        match nodeByRef nodes member.relatedTo with
        | some partnerNode =>
          [Edge.spouseLink partnerNode.x partnerNode.y memberNode.x memberNode.y]
        | none => []
      else []) ++
      (if 0 < (parentsArr heap member).length then
        parentEdge memberNode
          ((parentsArr heap member).filterMap (nodeById nodes))
      else []))

/-- The outcome of drawTree: the empty-store placeholder, the missing
root message, or the positioned nodes and links. -/
inductive LayoutOut where
  | empty : LayoutOut
  | noRoot : LayoutOut
  | drawn (nodes : List PNode) (edges : List Edge) : LayoutOut
deriving DecidableEq, Repr

/-- Fuel that dominates the number of positionNode calls: each processed
member spawns at most 1 + |ms| tasks, at most |ms| members are processed,
plus the initial root task. -/
def layoutFuel (ms : List Member) : Nat :=
  (ms.length + 1) * (ms.length + 2)

/-- The layout portion of drawTree (script.js lines 109-213): empty
placeholder for an empty store, error when no member has the root
relationship, otherwise position everything depth-first from the root at
(0, 0), re-center horizontally by offsetX = -minX - (maxX - minX) / 2,
and emit the links.  It is a pure function of the snapshot. -/
def drawTree (ms : List Member) (heap : List (List Nat)) : LayoutOut :=
  if ms.length = 0 then LayoutOut.empty
  else
    match ms.find? (fun m => m.relationship == Rel.root) with
    | none => LayoutOut.noRoot
    | some rootMember =>
      let st := positionSteps ms heap (layoutFuel ms)
        { nodes := [], processed := [], maxX := 0, minX := 0 }
        [(rootMember.id, 0, 0)]
      let offsetX := -st.minX - (st.maxX - st.minX) / 2
      let nodes := st.nodes.map (fun nd => { nd with x := nd.x + offsetX })
      LayoutOut.drawn nodes (drawEdges ms heap nodes)

/-! Concrete scenario states, built by running the submit handler from the
page-load state.  They are shared by several witnesses and
counterexamples below. -/

/-- The store after adding the root "Alice". -/
def demoRoot : State := (handle initState ⟨"Alice", Rel.root, none, false⟩).1

/-- demoRoot, then the child "Bob" related to Alice. -/
def demoAliceBob : State := (handle demoRoot ⟨"Bob", Rel.child, some 1, false⟩).1

/-- The spec scenario store: root "Alice", child "Bob" of Alice, spouse
"Carol" of Bob, child "Dana" of Bob with the is-child-of-both box checked
(so Dana gets parents [2, 3]). -/
def demoC1 : State :=
  (handle (handle demoAliceBob ⟨"Carol", Rel.spouse, some 2, false⟩).1
    ⟨"Dana", Rel.child, some 2, true⟩).1

/-- Root "Alice" with three children "Bob", "Carl", "Dee". -/
def demoThreeKids : State :=
  (handle (handle (handle demoRoot ⟨"Bob", Rel.child, some 1, false⟩).1
    ⟨"Carl", Rel.child, some 1, false⟩).1 ⟨"Dee", Rel.child, some 1, false⟩).1

/-- Root "Alice" and her spouse "Bob" (a spouse member with relatedTo the
string of id 1). -/
def demoCouple : State := (handle demoRoot ⟨"Bob", Rel.spouse, some 1, false⟩).1

/-- Root "Alice", child "Bob", sibling "Sam" of Bob (sharing the parents
array of Bob). -/
def demoSibling : State :=
  (handle demoAliceBob ⟨"Sam", Rel.sibling, some 2, false⟩).1

/-- The member record created for Bob in demoAliceBob (child of Alice,
with a parents array reference to heap cell 1). -/
def bobMember : Member :=
  { id := 2, name := "Bob", relatedTo := JSRef.jstr 1,
    relationship := Rel.child, parents := some 1 }

/-! Basic lemmas about the submit handler. -/

theorem parentBranch_fst_of_err {s : State} {n : String} {t : Nat} {e : ErrMsg} :
    (parentBranch s n t).2 = some e → (parentBranch s n t).1 = s := by
  unfold parentBranch
  split
  · intro _; rfl
  · split
    · intro _; rfl
    · split <;> intro h <;> simp_all

theorem childBranch_fst_of_err {s : State} {n : String} {t : Nat} {b : Bool}
    {e : ErrMsg} :
    (childBranch s n t b).2 = some e → (childBranch s n t b).1 = s := by
  unfold childBranch
  split
  · intro _; rfl
  · split
    · split
      · intro _; rfl
      · intro h; simp_all
    · intro h; simp_all

theorem siblingBranch_fst_of_err {s : State} {n : String} {t : Nat} {e : ErrMsg} :
    (siblingBranch s n t).2 = some e → (siblingBranch s n t).1 = s := by
  unfold siblingBranch
  split
  · intro _; rfl
  · split
    · intro _; rfl
    · dsimp only
      split
      · intro _; rfl
      · intro h; simp_all

theorem spouseBranch_fst_of_err {s : State} {n : String} {t : Nat} {e : ErrMsg} :
    (spouseBranch s n t).2 = some e → (spouseBranch s n t).1 = s := by
  unfold spouseBranch
  split
  · intro _; rfl
  · intro h; simp_all

theorem handle_fst_of_err {s : State} {r : AddReq} {e : ErrMsg} :
    (handle s r).2 = some e → (handle s r).1 = s := by
  unfold handle
  dsimp only
  split
  · intro _; rfl
  · split
    · split
      · intro _; rfl
      · intro h; simp_all
    · split
      · intro _; rfl
      · split
        · intro _; rfl
        · split
          · exact parentBranch_fst_of_err
          · split
            · exact childBranch_fst_of_err
            · split
              · exact siblingBranch_fst_of_err
              · split
                · exact spouseBranch_fst_of_err
                · intro h; simp_all

/-- C4: every add request that fails validation leaves the store exactly
as it was: the familyMembers array, every parents array in the heap, and
the nextId counter are unchanged (no partial mutation).  All validation
failures of the submit handler are covered: empty name, duplicate root,
missing or self reference, unknown child or parent, a child that already
has two parents, a person without a spouse to serve as second parent, a
sibling target without parents, and a member that already has a spouse. -/
theorem c4_validation_failure_no_mutation (s : State) (r : AddReq)
    (e : ErrMsg) (h : (handle s r).2 = some e) :
    (handle s r).1 = s := handle_fst_of_err h

/-- Witness for c4_validation_failure_no_mutation: the duplicate-root
failure on the one-member store leaves the store unchanged. -/
theorem c4_validation_failure_no_mutation_witness :
    (handle demoRoot ⟨"Bo", Rel.root, none, false⟩).1 = demoRoot :=
  c4_validation_failure_no_mutation _ _ ErrMsg.duplicateRoot (by decide)

/-! Claim C5: addSibling. -/

theorem siblingBranch_no_parent {s : State} {n : String} {t : Nat}
    {tm : Member} (ht : findMember s.familyMembers t = some tm)
    (h : parentsArr s.heap tm = []) :
    siblingBranch s n t = (s, some ErrMsg.siblingNoParent) := by
  unfold siblingBranch
  rw [ht]
  unfold parentsArr at h
  match hp : tm.parents with
  | none => simp [hp]
  | some ref =>
    simp only [hp] at h ⊢
    rw [List.getD_eq_getElem?_getD] at h
    simp [h]

theorem siblingBranch_success {s : State} {n : String} {t : Nat}
    {tm : Member} (ht : findMember s.familyMembers t = some tm)
    (h : parentsArr s.heap tm ≠ []) :
    siblingBranch s n t =
      ({ nextId := s.nextId + 1,
         familyMembers := s.familyMembers ++
           [{ id := s.nextId, name := n,
              relatedTo := JSRef.jnum ((parentsArr s.heap tm).headD 0),
              relationship := Rel.sibling, parents := tm.parents }],
         heap := s.heap }, none) := by
  unfold siblingBranch
  rw [ht]
  unfold parentsArr at h ⊢
  match hp : tm.parents with
  | none => simp [hp] at h
  | some ref =>
    simp only [hp] at h ⊢
    rw [List.getD_eq_getElem?_getD] at h
    simp [h]

/-- C5: for every store and every addSibling call with a non-empty name,
a selection resolving to the member tm, and a selected id different from
nextId: when tm has no parents (no parents field, or an empty parents
array, as for the root) the call fails with the sibling-needs-a-parent
message and the store is unchanged; when tm has a non-empty parents
array the call succeeds and appends exactly one member whose parents
array equals the parents array of tm (indeed the same array reference). -/
theorem c5_addSibling_copies_parents (s : State) (nm : String) (t : Nat)
    (b : Bool) (tm : Member) (hname : jsTrim nm ≠ "")
    (ht : findMember s.familyMembers t = some tm) (hnid : t ≠ s.nextId) :
    (parentsArr s.heap tm = [] →
      handle s ⟨nm, Rel.sibling, some t, b⟩ = (s, some ErrMsg.siblingNoParent))
    ∧ (parentsArr s.heap tm ≠ [] →
      (handle s ⟨nm, Rel.sibling, some t, b⟩).2 = none
      ∧ (handle s ⟨nm, Rel.sibling, some t, b⟩).1.familyMembers =
          s.familyMembers ++
            [{ id := s.nextId, name := jsTrim nm,
               relatedTo := JSRef.jnum ((parentsArr s.heap tm).headD 0),
               relationship := Rel.sibling, parents := tm.parents }]
      ∧ (handle s ⟨nm, Rel.sibling, some t, b⟩).1.heap = s.heap
      ∧ parentsArr (handle s ⟨nm, Rel.sibling, some t, b⟩).1.heap
          { id := s.nextId, name := jsTrim nm,
            relatedTo := JSRef.jnum ((parentsArr s.heap tm).headD 0),
            relationship := Rel.sibling, parents := tm.parents } =
          parentsArr s.heap tm) := by
  have hb : handle s ⟨nm, Rel.sibling, some t, b⟩ = siblingBranch s (jsTrim nm) t := by
    unfold handle
    simp [hname, hnid]
  constructor
  · intro h
    rw [hb, siblingBranch_no_parent ht h]
  · intro h
    rw [hb, siblingBranch_success ht h]
    refine ⟨rfl, rfl, rfl, ?_⟩
    unfold parentsArr
    rfl

/-- Witness for c5_addSibling_copies_parents: in the store with root
Alice and child Bob, the sibling request for Bob succeeds and copies the
parents array [1], while Bob resolves and has a non-empty parents array. -/
theorem c5_addSibling_copies_parents_witness :
    jsTrim "Sam" ≠ ""
    ∧ findMember demoAliceBob.familyMembers 2 = some bobMember
    ∧ (2 : Nat) ≠ demoAliceBob.nextId
    ∧ parentsArr demoAliceBob.heap bobMember ≠ []
    ∧ (handle demoAliceBob ⟨"Sam", Rel.sibling, some 2, false⟩).2 = none := by
  refine ⟨by decide, by decide, by decide, by decide, ?_⟩
  exact ((c5_addSibling_copies_parents demoAliceBob "Sam" 2 false bobMember
    (by decide) (by decide) (by decide)).2 (by decide)).1

/-! Claim C2: addSpouse. -/

/-- Alice, the root member of demoRoot and its extensions. -/
def aliceMember : Member :=
  { id := 1, name := "Alice", relatedTo := JSRef.null,
    relationship := Rel.root, parents := some 0 }

/-- Bob as created by the spouse branch in demoCouple: a spouse member
whose relatedTo is the digit string of id 1. -/
def bobSpouse : Member :=
  { id := 2, name := "Bob", relatedTo := JSRef.jstr 1,
    relationship := Rel.spouse, parents := none }

theorem handle_spouse_eq {s : State} {nm : String} {t : Nat} {b : Bool}
    (hname : jsTrim nm ≠ "") (hnid : t ≠ s.nextId) :
    handle s ⟨nm, Rel.spouse, some t, b⟩ = spouseBranch s (jsTrim nm) t := by
  unfold handle
  simp [hname, hnid]

/-- C2 counterexample: in the store with root Alice and her spouse Bob,
Bob already has a spouse (the derived lookup used by the child branch
reports Alice), yet addSpouse("Eve", Bob) succeeds instead of failing
with the already-married message, and afterwards Bob still reports Alice
as spouse, not the newly added Eve (id 3). -/
theorem c2_counterexample :
    findMember demoCouple.familyMembers 2 = some bobSpouse
    ∧ findSpouseOf demoCouple.familyMembers bobSpouse = some aliceMember
    ∧ (handle demoCouple ⟨"Eve", Rel.spouse, some 2, false⟩).2 = none
    ∧ findSpouseOf
        (handle demoCouple ⟨"Eve", Rel.spouse, some 2, false⟩).1.familyMembers
        bobSpouse = some aliceMember
    ∧ aliceMember.id ≠ 3 := by
  refine ⟨by decide, by decide, by decide, by decide, by decide⟩

/-- C2 amended: the spouse branch fails with the already-married message
exactly when some existing member is recorded as a spouse member pointing
at the selected id t (it does not inspect the relatedTo link of t itself,
so a spouse member can be given a second spouse); when no such record
exists the call succeeds, appends exactly the new spouse record, and if
the selection resolves to a member pm that is not itself a spouse member,
the derived spouse lookup afterwards is reciprocal: the new member
reports pm and pm reports the new member. -/
theorem c2_addSpouse_amended (s : State) (nm : String) (t : Nat) (b : Bool)
    (hname : jsTrim nm ≠ "") (hnid : t ≠ s.nextId) :
    ((handle s ⟨nm, Rel.spouse, some t, b⟩).2 = some ErrMsg.alreadyHasSpouse ↔
      ∃ m ∈ s.familyMembers,
        looseEq m.relatedTo t = true ∧ m.relationship = Rel.spouse)
    ∧ (s.familyMembers.all
        (fun m => !(looseEq m.relatedTo t && m.relationship == Rel.spouse)) =
          true →
      (handle s ⟨nm, Rel.spouse, some t, b⟩).2 = none
      ∧ (handle s ⟨nm, Rel.spouse, some t, b⟩).1.familyMembers =
          s.familyMembers ++ [spouseRecord s (jsTrim nm) t]
      ∧ ∀ pm, findMember s.familyMembers t = some pm →
          pm.relationship ≠ Rel.spouse →
          findSpouseOf (s.familyMembers ++ [spouseRecord s (jsTrim nm) t])
              (spouseRecord s (jsTrim nm) t) = some pm
          ∧ findSpouseOf (s.familyMembers ++ [spouseRecord s (jsTrim nm) t])
              pm = some (spouseRecord s (jsTrim nm) t)) := by
  rw [handle_spouse_eq hname hnid]
  unfold spouseBranch
  constructor
  · constructor
    · intro h
      by_cases hany : s.familyMembers.any
          (fun m => looseEq m.relatedTo t && m.relationship == Rel.spouse) = true
      · simpa [Bool.and_eq_true, beq_iff_eq] using List.any_eq_true.mp hany
      · simp only [Bool.not_eq_true] at hany
        simp [hany] at h
    · intro h
      have hany : s.familyMembers.any
          (fun m => looseEq m.relatedTo t && m.relationship == Rel.spouse) = true := by
        refine List.any_eq_true.mpr ?_
        obtain ⟨m, hm, h1, h2⟩ := h
        exact ⟨m, hm, by simp [h1, h2]⟩
      simp [hany]
  · intro hall
    have hany : s.familyMembers.any
        (fun m => looseEq m.relatedTo t && m.relationship == Rel.spouse) = false := by
      cases hy : s.familyMembers.any
          (fun m => looseEq m.relatedTo t && m.relationship == Rel.spouse)
      · rfl
      · obtain ⟨m, hm, hp⟩ := List.any_eq_true.mp hy
        have := List.all_eq_true.mp hall m hm
        simp [hp] at this
    refine ⟨by simp [hany], by simp [hany], ?_⟩
    intro pm hpm hpmrel
    unfold findMember at hpm
    have hpmid2 : pm.id = t := by simpa using List.find?_some hpm
    constructor
    · unfold findSpouseOf spouseRecord
      simp only [if_true]
      have hpred : (fun (m : Member) => looseEq (JSRef.jstr t) m.id) =
          (fun (m : Member) => m.id == t) := by
        funext m
        simp only [looseEq]
        simp [eq_comm]
      simp only [hpred]
      rw [List.find?_append]
      rw [hpm]
      rfl
    · unfold findSpouseOf
      rw [if_neg hpmrel]
      rw [List.find?_append]
      have hnone : s.familyMembers.find?
          (fun m => looseEq m.relatedTo pm.id && m.relationship == Rel.spouse) =
            none := by
        refine List.find?_eq_none.mpr ?_
        intro x hx
        have hd : looseEq x.relatedTo t = false ∨ ¬x.relationship = Rel.spouse := by
          simpa using List.all_eq_true.mp hall x hx
        rw [hpmid2]
        rcases hd with h1 | h2
        · simp [h1]
        · simp [h2]
      rw [hnone]
      unfold spouseRecord
      simp [looseEq, hpmid2]

/-- Witness for c2_addSpouse_amended: in the single-member store with
root Alice, addSpouse("Bob", Alice) succeeds and the derived spouse
relation between Alice and the new Bob record is reciprocal. -/
theorem c2_addSpouse_amended_witness :
    (handle demoRoot ⟨"Bob", Rel.spouse, some 1, false⟩).2 = none
    ∧ findSpouseOf
        (demoRoot.familyMembers ++ [spouseRecord demoRoot "Bob" 1])
        aliceMember = some (spouseRecord demoRoot "Bob" 1) := by
  have h := c2_addSpouse_amended demoRoot "Bob" 1 false (by decide) (by decide)
  have h2 := h.2 (by decide)
  exact ⟨h2.1, (h2.2.2 aliceMember (by decide) (by decide)).2⟩

/-! Claim C9: the sibling branch shares the parents array by reference,
so a parent added to the target later also appears among the parents of
the sibling. -/

/-- C9: start from any store in which the selected member tm resolves,
has a parents reference to a heap cell holding exactly one parent id, and
the selected id clashes with neither of the next two ids.  Then
addSibling(nm1, t) succeeds, the subsequent addParent(nm2, t) succeeds,
and afterwards the sibling record (id = the first nextId) dereferences to
the same parents array as tm: both read arr ++ [p] where p is the id of
the newly added parent, so p is also a parent of the sibling. -/
theorem c9_sibling_shares_parents_ref (s : State) (nm1 nm2 : String)
    (t : Nat) (tm : Member) (ref : Nat) (arr : List Nat)
    (hn1 : jsTrim nm1 ≠ "") (hn2 : jsTrim nm2 ≠ "")
    (ht : findMember s.familyMembers t = some tm)
    (hr : tm.parents = some ref)
    (ha : s.heap[ref]? = some arr)
    (hlen : arr.length = 1)
    (hd1 : t ≠ s.nextId) (hd2 : t ≠ s.nextId + 1) :
    (handle s ⟨nm1, Rel.sibling, some t, false⟩).2 = none
    ∧ ((handle (handle s ⟨nm1, Rel.sibling, some t, false⟩).1
        ⟨nm2, Rel.parent, some t, false⟩).2 = none
    ∧ parentsArr
        (handle (handle s ⟨nm1, Rel.sibling, some t, false⟩).1
          ⟨nm2, Rel.parent, some t, false⟩).1.heap
        { id := s.nextId, name := jsTrim nm1,
          relatedTo := JSRef.jnum (arr.headD 0),
          relationship := Rel.sibling, parents := tm.parents } =
        arr ++ [s.nextId + 1]
    ∧ parentsArr
        (handle (handle s ⟨nm1, Rel.sibling, some t, false⟩).1
          ⟨nm2, Rel.parent, some t, false⟩).1.heap
        { id := s.nextId, name := jsTrim nm1,
          relatedTo := JSRef.jnum (arr.headD 0),
          relationship := Rel.sibling, parents := tm.parents } =
      parentsArr
        (handle (handle s ⟨nm1, Rel.sibling, some t, false⟩).1
          ⟨nm2, Rel.parent, some t, false⟩).1.heap tm
    ∧ (s.nextId + 1) ∈
      parentsArr
        (handle (handle s ⟨nm1, Rel.sibling, some t, false⟩).1
          ⟨nm2, Rel.parent, some t, false⟩).1.heap
        { id := s.nextId, name := jsTrim nm1,
          relatedTo := JSRef.jnum (arr.headD 0),
          relationship := Rel.sibling, parents := tm.parents }) := by
  have harr : parentsArr s.heap tm = arr := by
    unfold parentsArr
    rw [hr]
    dsimp only
    rw [List.getD_eq_getElem?_getD, ha]
    rfl
  have hne : parentsArr s.heap tm ≠ [] := by
    rw [harr]
    intro hc
    rw [hc] at hlen
    simp at hlen
  have hsib := siblingBranch_success (n := jsTrim nm1) ht hne
  have hb1 : handle s ⟨nm1, Rel.sibling, some t, false⟩ =
      siblingBranch s (jsTrim nm1) t := by
    unfold handle
    simp [hn1, hd1]
  rw [hb1, hsib]
  refine ⟨rfl, ?_⟩
  set sib : Member :=
    { id := s.nextId, name := jsTrim nm1,
      relatedTo := JSRef.jnum ((parentsArr s.heap tm).headD 0),
      relationship := Rel.sibling, parents := tm.parents } with hsibdef
  set s1 : State :=
    { nextId := s.nextId + 1,
      familyMembers := s.familyMembers ++ [sib],
      heap := s.heap } with hs1def
  have hb2 : handle s1 ⟨nm2, Rel.parent, some t, false⟩ =
      parentBranch s1 (jsTrim nm2) t := by
    unfold handle
    have : t ≠ s1.nextId := by
      rw [hs1def]
      exact hd2
    simp [hn2, this]
  have hfind1 : findMember s1.familyMembers t = some tm := by
    unfold findMember at ht ⊢
    rw [hs1def]
    dsimp only
    rw [List.find?_append, ht]
    rfl
  have hreflt : ref < s.heap.length := by
    by_contra hge
    rw [List.getElem?_eq_none (by omega)] at ha
    exact Option.noConfusion ha
  have harr1 : parentsArr s1.heap tm = arr := harr
  rw [hb2]
  unfold parentBranch
  rw [hfind1]
  dsimp only
  rw [harr1]
  have hlt2 : ¬ 2 ≤ arr.length := by omega
  rw [if_neg hlt2]
  rw [hr]
  dsimp only
  constructor
  · rfl
  · have hcell : (s.heap.set ref (s.heap.getD ref [] ++ [s.nextId + 1])).getD ref [] =
        arr ++ [s.nextId + 1] := by
      rw [List.getD_eq_getElem?_getD, List.getElem?_set_self hreflt,
        List.getD_eq_getElem?_getD, ha]
      rfl
    refine ⟨?_, ?_, ?_⟩
    · unfold parentsArr
      dsimp only
      exact hcell
    · unfold parentsArr
      rw [hr]
    · unfold parentsArr
      dsimp only
      rw [hcell]
      simp

/-- Witness for c9_sibling_shares_parents_ref: in the store with root
Alice and child Bob, adding the sibling Sam of Bob and then the parent
Pat of Bob makes Pat (id 4) a parent of Sam as well. -/
theorem c9_sibling_shares_parents_ref_witness :
    (handle demoAliceBob ⟨"Sam", Rel.sibling, some 2, false⟩).2 = none
    ∧ ((handle (handle demoAliceBob ⟨"Sam", Rel.sibling, some 2, false⟩).1
        ⟨"Pat", Rel.parent, some 2, false⟩).2 = none
    ∧ parentsArr
        (handle (handle demoAliceBob ⟨"Sam", Rel.sibling, some 2, false⟩).1
          ⟨"Pat", Rel.parent, some 2, false⟩).1.heap
        { id := 3, name := jsTrim "Sam",
          relatedTo := JSRef.jnum ([1].headD 0),
          relationship := Rel.sibling, parents := bobMember.parents } =
        [1] ++ [3 + 1]
    ∧ parentsArr
        (handle (handle demoAliceBob ⟨"Sam", Rel.sibling, some 2, false⟩).1
          ⟨"Pat", Rel.parent, some 2, false⟩).1.heap
        { id := 3, name := jsTrim "Sam",
          relatedTo := JSRef.jnum ([1].headD 0),
          relationship := Rel.sibling, parents := bobMember.parents } =
      parentsArr
        (handle (handle demoAliceBob ⟨"Sam", Rel.sibling, some 2, false⟩).1
          ⟨"Pat", Rel.parent, some 2, false⟩).1.heap bobMember
    ∧ (3 + 1) ∈
      parentsArr
        (handle (handle demoAliceBob ⟨"Sam", Rel.sibling, some 2, false⟩).1
          ⟨"Pat", Rel.parent, some 2, false⟩).1.heap
        { id := 3, name := jsTrim "Sam",
          relatedTo := JSRef.jnum ([1].headD 0),
          relationship := Rel.sibling, parents := bobMember.parents }) :=
  c9_sibling_shares_parents_ref demoAliceBob "Sam" "Pat" 2 bobMember 1 [1]
    (by decide) (by decide) (by decide) (by decide) (by decide) (by decide)
    (by decide) (by decide)

/-! Reachable stores.  The related-to select is populated from the
familyMembers array, so a submitted selection is always the id of an
existing member; ValidReq captures exactly that UI constraint. -/

/-- A request the form can actually submit: the selection, when present,
is the id of an existing member (the select only lists members). -/
def ValidReq (s : State) (r : AddReq) : Prop :=
  ∀ t, r.relatedTo = some t → t ∈ s.familyMembers.map Member.id

/-- The stores reachable from the page-load state by form submissions. -/
inductive Reachable : State → Prop where
  | init : Reachable initState
  | step (s : State) (r : AddReq) (hs : Reachable s) (hv : ValidReq s r) :
      Reachable (handle s r).1

/-- The number of members whose relationship is root. -/
def countRoots (ms : List Member) : Nat :=
  ms.countP (fun m => m.relationship == Rel.root)

/-- The store invariant: a non-empty store has exactly one root member,
member ids appear in strictly increasing order, and every id is below the
nextId counter. -/
def Inv (s : State) : Prop :=
  (s.familyMembers = [] ∨ countRoots s.familyMembers = 1)
  ∧ List.Pairwise (· < ·) (s.familyMembers.map Member.id)
  ∧ ∀ m ∈ s.familyMembers, m.id < s.nextId

theorem setParentsRef_countRoots (ms : List Member) (t ref : Nat) :
    countRoots (setParentsRef ms t ref) = countRoots ms := by
  induction ms with
  | nil => rfl
  | cons m ms ih =>
    unfold setParentsRef countRoots
    split
    · simp [List.countP_cons, countRoots]
    · simp only [List.countP_cons, countRoots] at ih ⊢
      omega

theorem setParentsRef_map_id (ms : List Member) (t ref : Nat) :
    (setParentsRef ms t ref).map Member.id = ms.map Member.id := by
  induction ms with
  | nil => rfl
  | cons m ms ih =>
    unfold setParentsRef
    split
    · simp
    · simp [ih]

theorem findMember_mem {ms : List Member} {t : Nat} {m : Member}
    (h : findMember ms t = some m) : m ∈ ms :=
  List.mem_of_find?_eq_some h

theorem findMember_ne_nil {ms : List Member} {t : Nat} {m : Member}
    (h : findMember ms t = some m) : ms ≠ [] := by
  intro hc
  rw [hc] at h
  exact Option.noConfusion h

theorem countRoots_append_nonroot {ms : List Member} {m : Member}
    (h : m.relationship ≠ Rel.root) :
    countRoots (ms ++ [m]) = countRoots ms := by
  unfold countRoots
  rw [List.countP_append]
  simp [List.countP_cons, h]

theorem inv_append_member {s : State} {m : Member} {n h1}
    (hinv : Inv s) (hid : m.id = s.nextId) (hn : s.nextId < n)
    (hrel : m.relationship ≠ Rel.root) (hne : s.familyMembers ≠ []) :
    Inv { nextId := n, familyMembers := s.familyMembers ++ [m], heap := h1 } := by
  obtain ⟨hroot, hpair, hbound⟩ := hinv
  refine ⟨?_, ?_, ?_⟩
  · right
    rw [countRoots_append_nonroot hrel]
    rcases hroot with h | h
    · exact absurd h hne
    · exact h
  · simp only [List.map_append, List.map_cons, List.map_nil]
    rw [List.pairwise_append]
    refine ⟨hpair, by simp, ?_⟩
    intro a ha b hb
    simp only [List.mem_singleton] at hb
    subst hb
    rw [hid]
    simp only [List.mem_map] at ha
    obtain ⟨mm, hmm, hmm2⟩ := ha
    rw [← hmm2]
    exact hbound mm hmm
  · intro mm hmm
    rcases List.mem_append.mp hmm with h | h
    · exact Nat.lt_trans (hbound mm h) hn
    · simp only [List.mem_singleton] at h
      subst h
      rw [hid]
      dsimp only
      exact hn

theorem inv_handle {s : State} {r : AddReq} (hinv : Inv s)
    (hv : ValidReq s r) : Inv (handle s r).1 := by
  unfold handle
  dsimp only
  split
  · exact hinv
  · split
    · split
      · exact hinv
      · rename_i hempty
        have hsnil : s.familyMembers = [] := by
          simpa using hempty
        refine ⟨Or.inr ?_, ?_, ?_⟩
        · rw [hsnil]
          rfl
        · rw [hsnil]
          simp
        · rw [hsnil]
          intro m hm
          simp only [List.nil_append, List.mem_singleton] at hm
          subst hm
          exact Nat.lt_succ_self _
    · split
      · exact hinv
      · rename_i t hsel
        split
        · exact hinv
        · have htmem : t ∈ s.familyMembers.map Member.id := hv t hsel
          have hne : s.familyMembers ≠ [] := by
            intro hc
            rw [hc] at htmem
            simp at htmem
          split
          · unfold parentBranch
            split
            · exact hinv
            · split
              · exact hinv
              · dsimp only
                split
                · exact inv_append_member hinv rfl (Nat.lt_succ_self _)
                    (by simp) hne
                · refine ⟨Or.inr ?_, ?_, ?_⟩
                  · rw [countRoots_append_nonroot (by simp)]
                    rw [setParentsRef_countRoots]
                    rcases hinv.1 with h | h
                    · exact absurd h hne
                    · exact h
                  · simp only [List.map_append, List.map_cons, List.map_nil,
                      setParentsRef_map_id]
                    rw [List.pairwise_append]
                    refine ⟨hinv.2.1, by simp, ?_⟩
                    intro a ha b hb
                    simp only [List.mem_singleton] at hb
                    subst hb
                    simp only [List.mem_map] at ha
                    obtain ⟨mm, hmm, hmm2⟩ := ha
                    rw [← hmm2]
                    exact hinv.2.2 mm hmm
                  · intro mm hmm
                    rcases List.mem_append.mp hmm with h | h
                    · have hin : mm.id ∈ (setParentsRef s.familyMembers t
                          s.heap.length).map Member.id :=
                        List.mem_map_of_mem Member.id h
                      rw [setParentsRef_map_id] at hin
                      simp only [List.mem_map] at hin
                      obtain ⟨mm2, hmm2, hmm3⟩ := hin
                      rw [← hmm3]
                      exact Nat.lt_trans (hinv.2.2 mm2 hmm2) (Nat.lt_succ_self _)
                    · simp only [List.mem_singleton] at h
                      subst h
                      exact Nat.lt_succ_self _
          · split
            · unfold childBranch
              split
              · exact hinv
              · split
                · split
                  · exact hinv
                  · exact inv_append_member hinv rfl (Nat.lt_succ_self _)
                      (by simp) hne
                · exact inv_append_member hinv rfl (Nat.lt_succ_self _)
                    (by simp) hne
            · split
              · unfold siblingBranch
                split
                · exact hinv
                · split
                  · exact hinv
                  · dsimp only
                    split
                    · exact hinv
                    · exact inv_append_member hinv rfl (Nat.lt_succ_self _)
                        (by simp) hne
              · split
                · unfold spouseBranch
                  split
                  · exact hinv
                  · exact inv_append_member hinv rfl (Nat.lt_succ_self _)
                      (by simp [spouseRecord]) hne
                · exact hinv

theorem inv_init : Inv initState := by
  refine ⟨Or.inl rfl, ?_, ?_⟩
  · simp [initState]
  · intro m hm
    simp [initState] at hm

theorem inv_of_reachable {s : State} (h : Reachable s) : Inv s := by
  induction h with
  | init => exact inv_init
  | step s r hs hv ih => exact inv_handle ih hv

/-! Claim C7: addRoot. -/

theorem reachable_demoRoot : Reachable demoRoot :=
  Reachable.step initState ⟨"Alice", Rel.root, none, false⟩ Reachable.init
    (fun _ ht => Option.noConfusion ht)

/-- C7: on every reachable store, (i) a non-empty store has exactly one
root member; (ii) a root request with a usable name fails with the
duplicate-root message whenever a root member already exists, leaving the
store unchanged; (iii) a request whose name is the empty string fails
with the enter-a-name message, leaving the store unchanged; (iv) a root
request succeeds only when the store is empty and the name is non-empty,
and then the store becomes exactly one root member whose parents array is
empty. -/
theorem c7_addRoot_unique (s : State) (hs : Reachable s) :
    (s.familyMembers ≠ [] → countRoots s.familyMembers = 1)
    ∧ (∀ r : AddReq, r.relationship = Rel.root → jsTrim r.name ≠ "" →
        (∃ m ∈ s.familyMembers, m.relationship = Rel.root) →
        handle s r = (s, some ErrMsg.duplicateRoot))
    ∧ (∀ r : AddReq, r.name = "" → handle s r = (s, some ErrMsg.emptyName))
    ∧ (∀ r : AddReq, r.relationship = Rel.root → (handle s r).2 = none →
        s.familyMembers = [] ∧ r.name ≠ ""
        ∧ (handle s r).1.familyMembers =
            [{ id := s.nextId, name := jsTrim r.name, relatedTo := JSRef.null,
               relationship := Rel.root, parents := some s.heap.length }]
        ∧ parentsArr (handle s r).1.heap
            { id := s.nextId, name := jsTrim r.name, relatedTo := JSRef.null,
              relationship := Rel.root, parents := some s.heap.length } = []) := by
  have hinv := inv_of_reachable hs
  refine ⟨?_, ?_, ?_, ?_⟩
  · intro hne
    rcases hinv.1 with h | h
    · exact absurd h hne
    · exact h
  · intro r hroot hname hex
    have hlen : 0 < s.familyMembers.length := by
      obtain ⟨m, hm, _⟩ := hex
      exact List.length_pos.mpr (List.ne_nil_of_mem hm)
    unfold handle
    simp [hname, hroot, hlen]
  · intro r hr0
    have hname : jsTrim r.name = "" := by
      rw [hr0]
      decide
    unfold handle
    simp [hname]
  · intro r hroot hsucc
    unfold handle at hsucc ⊢
    dsimp only at hsucc ⊢
    by_cases hname : jsTrim r.name = ""
    · rw [if_pos hname] at hsucc
      simp at hsucc
    · rw [if_neg hname] at hsucc ⊢
      rw [if_pos hroot] at hsucc ⊢
      by_cases hlen : 0 < s.familyMembers.length
      · rw [if_pos hlen] at hsucc
        simp at hsucc
      · rw [if_neg hlen] at hsucc ⊢
        have hsnil : s.familyMembers = [] := by
          simpa using hlen
        refine ⟨hsnil, ?_, ?_, ?_⟩
        · intro hc
          rw [hc] at hname
          exact hname (by decide)
        · rw [hsnil]
          rfl
        · unfold parentsArr
          dsimp only
          rw [List.getD_eq_getElem?_getD, List.getElem?_concat_length]
          rfl

/-- Witness for c7_addRoot_unique: the store with root Alice is reachable,
it has exactly one root, and a further root request fails with the
duplicate-root message while an empty-name request fails with the
enter-a-name message. -/
theorem c7_addRoot_unique_witness :
    countRoots demoRoot.familyMembers = 1
    ∧ handle demoRoot ⟨"Zoe", Rel.root, none, false⟩ =
        (demoRoot, some ErrMsg.duplicateRoot)
    ∧ handle demoRoot ⟨"", Rel.child, some 1, false⟩ =
        (demoRoot, some ErrMsg.emptyName) := by
  have h := c7_addRoot_unique demoRoot reachable_demoRoot
  refine ⟨h.1 (by decide), ?_, ?_⟩
  · exact h.2.1 ⟨"Zoe", Rel.root, none, false⟩ rfl (by decide)
      ⟨aliceMember, by decide, rfl⟩
  · exact h.2.2.1 ⟨"", Rel.child, some 1, false⟩ rfl

/-! Claims C8, C1 and C3: the layout.  The rational operations of the
standard library are sealed against unfolding; re-marking them
semireducible lets concrete layouts be evaluated by the kernel. -/

section LayoutClaims

attribute [local semireducible] Rat.add Rat.sub Rat.mul Rat.inv Rat.ofScientific

/-- C8: the layout is a pure function of the snapshot (familyMembers and
the parents arrays): two invocations on equal snapshots return identical
positioned nodes and identical edge lists, whatever the rest of the page
state is. -/
theorem c8_layout_deterministic (ms1 ms2 : List Member)
    (h1 h2 : List (List Nat)) (hm : ms1 = ms2) (hh : h1 = h2) :
    drawTree ms1 h1 = drawTree ms2 h2 := by
  subst hm
  subst hh
  rfl

/-- Witness for c8_layout_deterministic: two runs on the four-member
scenario snapshot agree. -/
theorem c8_layout_deterministic_witness :
    drawTree demoC1.familyMembers demoC1.heap =
      drawTree demoC1.familyMembers demoC1.heap :=
  c8_layout_deterministic _ _ _ _ rfl rfl

/-- The nodes drawTree computes for the demoC1 scenario. -/
def c1Nodes : List PNode :=
  [{ id := 1, name := "Alice", x := 0, y := 0, relationship := Rel.root },
   { id := 2, name := "Bob", x := 0, y := 150, relationship := Rel.child },
   { id := 4, name := "Dana", x := 0, y := 300, relationship := Rel.child }]

/-- The edges drawTree computes for the demoC1 scenario: two plain
parent-child links (Alice to Bob and Bob to Dana). -/
def c1Edges : List Edge :=
  [Edge.parentChild 0 0 0 150, Edge.parentChild 0 150 0 300]

/-- C1 counterexample: in the scenario addRoot(Alice), addChild(Bob),
addSpouse(Carol, Bob), addChild(Dana, both parents), Dana does have the
two parents 2 and 3, and both resolve to existing members; yet the layout
contains 3 nodes, not the claimed 4: Carol (id 3) receives no node at
all, because positionNode looks spouses up with strict equality between
the string-valued relatedTo and the numeric member id.  Dana is placed
directly under Bob (x = 0), not at any midpoint, and her parent link is a
single parent-child edge from Bob. -/
theorem c1_counterexample :
    drawTree demoC1.familyMembers demoC1.heap = LayoutOut.drawn c1Nodes c1Edges
    ∧ c1Nodes.length = 3
    ∧ c1Nodes.length ≠ 4
    ∧ nodeById c1Nodes 3 = none
    ∧ (findMember demoC1.familyMembers 4).map (parentsArr demoC1.heap) =
        some [2, 3]
    ∧ (findMember demoC1.familyMembers 2).map Member.name = some "Bob"
    ∧ (findMember demoC1.familyMembers 3).map Member.name = some "Carol" := by
  refine ⟨by decide, by decide, by decide, by decide, by decide, by decide,
    by decide⟩

/-- C1 amended: in the scenario the layout has 3 nodes (the spouse Carol
is never positioned, because the spouse lookup of positionNode compares
her string relatedTo to a numeric id with strict equality); Dana is
placed at the x-coordinate of Bob, the one positioned parent through
which she is reached, one vertical spacing unit below him.  The midpoint
of the two parents appears only in edge drawing: whenever a child has two
positioned parents, the emitted child-couple connector starts at the
midpoint of the parents x-coordinates, at the first parent y. -/
theorem c1_amended :
    drawTree demoC1.familyMembers demoC1.heap = LayoutOut.drawn c1Nodes c1Edges
    ∧ (nodeById c1Nodes 4).map PNode.x = (nodeById c1Nodes 2).map PNode.x
    ∧ (nodeById c1Nodes 4).map PNode.y = some (150 + nodeSpacingY)
    ∧ (nodeById c1Nodes 2).map PNode.y = some 150
    ∧ ∀ (c p1 p2 : PNode), parentEdge c [p1, p2] =
        [Edge.childCoupleConnector ((p1.x + p2.x) / 2) p1.y c.x c.y] := by
  refine ⟨by decide, by decide, by decide, by decide, fun c p1 p2 => rfl⟩

/-- The nodes drawTree computes for the three-children store. -/
def kidNodes : List PNode :=
  [{ id := 1, name := "Alice", x := 0, y := 0, relationship := Rel.root },
   { id := 2, name := "Bob", x := -150, y := 150, relationship := Rel.child },
   { id := 3, name := "Carl", x := 0, y := 150, relationship := Rel.child },
   { id := 4, name := "Dee", x := 150, y := 150, relationship := Rel.child }]

/-- The edges drawTree computes for the three-children store. -/
def kidEdges : List Edge :=
  [Edge.parentChild 0 0 (-150) 150, Edge.parentChild 0 0 0 150,
   Edge.parentChild 0 0 150 150]

/-- C3 counterexample: with three children the layout spaces adjacent
children nodeSpacingX = 150 apart, but the claimed formula
childSpacing = max(1, n - 1) * horizontalSpacing gives 300 for n = 3. -/
theorem c3_counterexample :
    drawTree demoThreeKids.familyMembers demoThreeKids.heap =
      LayoutOut.drawn kidNodes kidEdges
    ∧ (childrenOf demoThreeKids.familyMembers demoThreeKids.heap 1).length = 3
    ∧ (nodeById kidNodes 3).map PNode.x = some 0
    ∧ (nodeById kidNodes 2).map PNode.x = some (-150)
    ∧ (0 : Rat) - (-150) = nodeSpacingX
    ∧ ((max 1 (3 - 1) : Nat) : Rat) * nodeSpacingX = 300
    ∧ nodeSpacingX ≠ ((max 1 (3 - 1) : Nat) : Rat) * nodeSpacingX := by
  refine ⟨by decide, by decide, by decide, by decide, by decide, by decide,
    by decide⟩

theorem childSlots_getD (x y : Rat) (n i : Nat) (hi : i < n) :
    (childSlots x y n).getD i (0, 0) =
      (x - ((n : Rat) - 1) * (if 1 < n then nodeSpacingX else 0) / 2 +
        (i : Rat) * (if 1 < n then nodeSpacingX else 0), y + nodeSpacingY) := by
  unfold childSlots
  dsimp only
  rw [List.getD_eq_getElem?_getD]
  simp [List.getElem?_range, hi]

/-- C3 amended: for a member positioned at (x, y) with n children, the
coordinates handed to the children are: every child one nodeSpacingY
below y; adjacent children exactly nodeSpacingX apart (not
max(1, n - 1) * nodeSpacingX); the row symmetric about x (slots i and
n - 1 - i sum to 2x); and the children are taken in familyMembers order,
whose ids are strictly increasing on every reachable store, so the
left-to-right order is ascending id. -/
theorem c3_children_placement_amended (x y : Rat) (n : Nat) (hn : 0 < n) :
    (childSlots x y n).length = n
    ∧ (∀ i, i < n → ((childSlots x y n).getD i (0, 0)).2 = y + nodeSpacingY)
    ∧ (∀ i, i + 1 < n →
        ((childSlots x y n).getD (i + 1) (0, 0)).1 -
          ((childSlots x y n).getD i (0, 0)).1 = nodeSpacingX)
    ∧ (∀ i j, i < n → j < n → i + j = n - 1 →
        ((childSlots x y n).getD i (0, 0)).1 +
          ((childSlots x y n).getD j (0, 0)).1 = 2 * x)
    ∧ (∀ s, Reachable s → ∀ pid,
        List.Pairwise (· < ·)
          ((childrenOf s.familyMembers s.heap pid).map Member.id)) := by
  refine ⟨?_, ?_, ?_, ?_, ?_⟩
  · unfold childSlots
    dsimp only
    rw [List.length_map, List.length_range]
  · intro i hi
    rw [childSlots_getD x y n i hi]
  · intro i hi
    have h1n : 1 < n := by omega
    rw [childSlots_getD x y n (i + 1) hi,
      childSlots_getD x y n i (by omega)]
    rw [if_pos h1n]
    dsimp only
    push_cast
    ring
  · intro i j hi hj hij
    rw [childSlots_getD x y n i hi, childSlots_getD x y n j hj]
    dsimp only
    have hij2 : (i : Rat) + (j : Rat) = (n : Rat) - 1 := by
      have h1 : i + j + 1 = n := by omega
      have h2 : ((i : Rat) + (j : Rat) + 1) = (n : Rat) := by
        exact_mod_cast h1
      linarith
    linear_combination (if 1 < n then nodeSpacingX else 0) * hij2
  · intro s hr pid
    have hsub : ((childrenOf s.familyMembers s.heap pid).map Member.id).Sublist
        (s.familyMembers.map Member.id) :=
      List.Sublist.map Member.id (List.filter_sublist s.familyMembers)
    exact List.Pairwise.sublist hsub (inv_of_reachable hr).2.1

/-- Witness for c3_children_placement_amended: three children of a member
at the origin get slots with adjacent spacing 150 and symmetric about 0,
and in the reachable three-children store the children of the root are
listed in ascending id order. -/
theorem c3_children_placement_amended_witness :
    (childSlots 0 0 3).length = 3
    ∧ ((childSlots 0 0 3).getD 1 (0, 0)).1 -
        ((childSlots 0 0 3).getD 0 (0, 0)).1 = nodeSpacingX
    ∧ ((childSlots 0 0 3).getD 0 (0, 0)).1 +
        ((childSlots 0 0 3).getD 2 (0, 0)).1 = 2 * 0 := by
  have h := c3_children_placement_amended 0 0 3 (by decide)
  exact ⟨h.1, h.2.2.1 0 (by decide), h.2.2.2.1 0 2 (by decide) (by decide) rfl⟩

end LayoutClaims

/-! The second variant (src/unnamed/part_000): members carry an explicit
spouse field and fresh parents arrays (addMember builds a new array per
member, so there is no sharing), and the page offers deleteMember.  The
claims C6 and C10 are about this variant. -/

namespace P0

/-- One element of the familyMembers array of part_000: id, name, gender,
a parents array of ids, and an optional spouse id. -/
structure Member where
  id : Nat
  name : String
  gender : String
  parents : List Nat
  spouse : Option Nat
deriving DecidableEq, Repr

/-- The page state of part_000. -/
structure State where
  nextId : Nat
  familyMembers : List Member
deriving DecidableEq, Repr

/-- One iteration step of the forEach in updateFamilyStructure
(part_000 lines 181-191) applied at the member under the cursor: if the
member has a (truthy, hence non-zero) spouse id, find that person, and
when the found person has no spouse yet, set the reciprocal link in
place. -/
def spouseLinkStep (ms : List Member) (member : Member) : List Member :=
  match member.spouse with
  | none => ms
  | some sid =>
    if sid = 0 then ms
    else
      match ms.findIdx? (fun m2 => m2.id == sid) with
      | none => ms
      | some j =>
        match ms[j]? with
        | none => ms
        | some sp =>
          if sp.spouse = none then ms.set j { sp with spouse := some member.id }
          else ms

/-- The forEach of updateFamilyStructure, walking the array positions in
order while mutations remain visible to later iterations.  The array
length never changes, so the index walk is bounded by the initial
length. -/
def updateFamilyStructureGo : Nat → List Member → Nat → List Member
  | 0, ms, _ => ms
  | fuel + 1, ms, i =>
    match ms[i]? with
    | none => ms
    | some member => updateFamilyStructureGo fuel (spouseLinkStep ms member) (i + 1)

/-- updateFamilyStructure (part_000 lines 181-191). -/
def updateFamilyStructure (ms : List Member) : List Member :=
  updateFamilyStructureGo ms.length ms 0

/-- deleteMember (part_000 lines 153-179): refuse id 0, silently return
when the id is unknown; otherwise drop the member itself and every member
whose spouse field equals it, then strip the id from every remaining
parents array and null out any remaining equal spouse field, and finally
re-run updateFamilyStructure. -/
def deleteMember (memberId : Nat) (s : State) : State :=
  if memberId = 0 then s
  else
    match s.familyMembers.find? (fun m => m.id == memberId) with
    | none => s
    | some _ =>
      let ms1 := s.familyMembers.filter
        (fun m => m.id != memberId && m.spouse != some memberId)
      let ms2 := ms1.map (fun m =>
        { m with parents := m.parents.filter (fun p => p != memberId),
                 spouse := if m.spouse == some memberId then none
                           else m.spouse })
      { s with familyMembers := updateFamilyStructure ms2 }

theorem spouseLinkStep_preserve (P : Member → Prop)
    (hstep : ∀ a b, P a → P b → P { a with spouse := some b.id })
    {ms : List Member} {member : Member} (hmem : P member)
    (h : ∀ m ∈ ms, P m) : ∀ m ∈ spouseLinkStep ms member, P m := by
  unfold spouseLinkStep
  split
  · exact h
  · split
    · exact h
    · split
      · exact h
      · split
        · exact h
        · rename_i sid hsid j hj sp hsp
          split
          · intro m hm
            rcases List.mem_or_eq_of_mem_set hm with hmem2 | hmem2
            · exact h m hmem2
            · subst hmem2
              exact hstep sp member (h sp (List.getElem?_mem hsp)) hmem
          · exact h

theorem updateFSGo_preserve (P : Member → Prop)
    (hstep : ∀ a b, P a → P b → P { a with spouse := some b.id }) :
    ∀ (fuel : Nat) (ms : List Member) (i : Nat), (∀ m ∈ ms, P m) →
      ∀ m ∈ updateFamilyStructureGo fuel ms i, P m := by
  intro fuel
  induction fuel with
  | zero => intro ms i h; exact h
  | succ f ih =>
    intro ms i h
    unfold updateFamilyStructureGo
    split
    · exact h
    · rename_i member hmember
      exact ih _ _ (spouseLinkStep_preserve P hstep
        (h member (List.getElem?_mem hmember)) h)

theorem updateFS_preserve (P : Member → Prop)
    (hstep : ∀ a b, P a → P b → P { a with spouse := some b.id })
    (ms : List Member) (h : ∀ m ∈ ms, P m) :
    ∀ m ∈ updateFamilyStructure ms, P m :=
  updateFSGo_preserve P hstep ms.length ms 0 h

/-- C6: for every store and every non-zero id present in it, after
deleteMember(id) no remaining member has id among its parents and no
remaining member has its spouse field equal to id. -/
theorem c6_deletion_cleanup (s : State) (mid : Nat) (hmid : mid ≠ 0)
    (hex : ∃ m ∈ s.familyMembers, m.id = mid) :
    ∀ m ∈ (deleteMember mid s).familyMembers,
      mid ∉ m.parents ∧ m.spouse ≠ some mid := by
  unfold deleteMember
  rw [if_neg hmid]
  obtain ⟨m0, hm0, hid0⟩ := hex
  have hfind : (s.familyMembers.find? (fun m => m.id == mid)).isSome := by
    cases hy : s.familyMembers.find? (fun m => m.id == mid) with
    | some mf => rfl
    | none =>
      have := List.find?_eq_none.mp hy m0 hm0
      simp [hid0] at this
  cases hy : s.familyMembers.find? (fun m => m.id == mid) with
  | none => rw [hy] at hfind; exact absurd hfind (by simp)
  | some mf =>
    dsimp only
    have hmain := updateFS_preserve
      (fun m => mid ∉ m.parents ∧ m.spouse ≠ some mid ∧ m.id ≠ mid)
      (by
        intro a b ha hb
        refine ⟨ha.1, ?_, ha.2.2⟩
        dsimp only
        intro hc
        have : b.id = mid := by
          simpa using hc
        exact hb.2.2 this)
      ((s.familyMembers.filter
        (fun m => m.id != mid && m.spouse != some mid)).map (fun m =>
          { m with parents := m.parents.filter (fun p => p != mid),
                   spouse := if m.spouse == some mid then none
                             else m.spouse }))
      (by
        intro m hm
        obtain ⟨m1, hm1, hm1eq⟩ := List.mem_map.mp hm
        have hfil := List.mem_filter.mp hm1
        have hpred := hfil.2
        simp only [Bool.and_eq_true, bne_iff_ne, ne_eq] at hpred
        subst hm1eq
        refine ⟨?_, ?_, ?_⟩
        · dsimp only
          intro hc
          have := (List.mem_filter.mp hc).2
          simp at this
        · dsimp only
          split
          · simp
          · rename_i hns
            simpa using hpred.2
        · dsimp only
          exact hpred.1)
    intro m hm
    exact ⟨(hmain m hm).1, (hmain m hm).2.1⟩

/-- Witness for c6_deletion_cleanup: deleting member 2 from a two-member
store where member 1 lists 2 as a parent leaves the surviving member 1
with no reference to id 2. -/
theorem c6_deletion_cleanup_witness :
    2 ∉ ({ id := 1, name := "A", gender := "f", parents := ([] : List Nat),
           spouse := (none : Option Nat) } : Member).parents
    ∧ ({ id := 1, name := "A", gender := "f", parents := ([] : List Nat),
         spouse := (none : Option Nat) } : Member).spouse ≠ some 2 :=
  c6_deletion_cleanup
    { nextId := 3,
      familyMembers :=
        [{ id := 1, name := "A", gender := "f", parents := [2],
           spouse := none },
         { id := 2, name := "B", gender := "m", parents := [],
           spouse := none }] }
    2 (by decide)
    ⟨{ id := 2, name := "B", gender := "m", parents := [], spouse := none },
      by decide, rfl⟩
    { id := 1, name := "A", gender := "f", parents := [], spouse := none }
    (by decide)

/-- C10: deleteMember removes not only the member with the given id but
every member whose spouse field equals that id; in particular, for a
reciprocally linked couple a, b (in a store with distinct member ids),
deleting a leaves no member carrying the id of a or of b. -/
theorem c10_delete_cascades_to_spouse (s : State) (a b : Member)
    (ha : a ∈ s.familyMembers) (hb : b ∈ s.familyMembers)
    (hab : a.spouse = some b.id) (hba : b.spouse = some a.id)
    (haid : a.id ≠ 0)
    (hnodup : (s.familyMembers.map Member.id).Nodup) :
    (∀ m ∈ s.familyMembers, m.spouse = some a.id →
      ∀ m2 ∈ (deleteMember a.id s).familyMembers, m2.id ≠ m.id)
    ∧ ∀ m2 ∈ (deleteMember a.id s).familyMembers,
        m2.id ≠ a.id ∧ m2.id ≠ b.id := by
  have hmain : ∀ m2 ∈ (deleteMember a.id s).familyMembers,
      m2.id ≠ a.id ∧ ∀ m ∈ s.familyMembers, m.spouse = some a.id →
        m2.id ≠ m.id := by
    unfold deleteMember
    rw [if_neg haid]
    have hfind : (s.familyMembers.find? (fun m => m.id == a.id)).isSome := by
      cases hy : s.familyMembers.find? (fun m => m.id == a.id) with
      | some mf => rfl
      | none =>
        have := List.find?_eq_none.mp hy a ha
        simp at this
    cases hy : s.familyMembers.find? (fun m => m.id == a.id) with
    | none => rw [hy] at hfind; exact absurd hfind (by simp)
    | some mf =>
      dsimp only
      exact updateFS_preserve
        (fun m2 => m2.id ≠ a.id ∧ ∀ m ∈ s.familyMembers,
          m.spouse = some a.id → m2.id ≠ m.id)
        (by
          intro x y hx hy2
          exact hx)
        _
        (by
          intro m2 hm2
          obtain ⟨m1, hm1, hm1eq⟩ := List.mem_map.mp hm2
          have hfil := List.mem_filter.mp hm1
          have hpred := hfil.2
          simp only [Bool.and_eq_true, bne_iff_ne, ne_eq] at hpred
          subst hm1eq
          refine ⟨hpred.1, ?_⟩
          intro m hm hsp hc
          dsimp only at hc
          have hmeq : m1 = m :=
            List.inj_on_of_nodup_map hnodup hfil.1 hm hc
          subst hmeq
          exact hpred.2 (by rw [hsp]))
  constructor
  · intro m hm hsp m2 hm2
    exact (hmain m2 hm2).2 m hm hsp
  · intro m2 hm2
    exact ⟨(hmain m2 hm2).1, (hmain m2 hm2).2 b hb hba⟩

/-- Witness for c10_delete_cascades_to_spouse: in a store with the
reciprocally married couple 1, 2 and the bystander 3, deleting member 1
leaves a store in which the surviving bystander record carries neither
id 1 nor id 2 (both partners are gone). -/
theorem c10_delete_cascades_to_spouse_witness :
    ({ id := 3, name := "C", gender := "x", parents := ([] : List Nat),
       spouse := (none : Option Nat) } : Member).id ≠ 1
    ∧ ({ id := 3, name := "C", gender := "x", parents := ([] : List Nat),
         spouse := (none : Option Nat) } : Member).id ≠ 2 :=
  (c10_delete_cascades_to_spouse
    { nextId := 4,
      familyMembers :=
        [{ id := 1, name := "A", gender := "f", parents := [],
           spouse := some 2 },
         { id := 2, name := "B", gender := "m", parents := [],
           spouse := some 1 },
         { id := 3, name := "C", gender := "x", parents := [],
           spouse := none }] }
    { id := 1, name := "A", gender := "f", parents := [], spouse := some 2 }
    { id := 2, name := "B", gender := "m", parents := [], spouse := some 1 }
    (by decide) (by decide) rfl rfl (by decide) (by decide)).2
    { id := 3, name := "C", gender := "x", parents := [], spouse := none }
    (by decide)

end P0

end FamilyTree
